import Mathlib

/-!
Shallow embedding of the live-captioning pipeline of `live_translation`
(src/config.py, src/utils.py, src/transcriber.py, src/translators.py,
src/audio.py).

External capabilities (the Silero VAD iterator, the Moonshine ASR model, the
translation backends, wall-clock time, the sound device) enter as oracle data:
each loop iteration's frame carries the chunk dequeued, the VAD iterator state
after `vad_iterator(chunk)`, the event dictionary that call returned, and the
wall-clock time of the iteration.  Everything the repository's own code does
with that data is translated directly from the source.
-/

set_option autoImplicit false
set_option maxRecDepth 4096

namespace LiveTranslation

variable {μ : Type}

/-! ### Configuration constants (src/config.py) -/

/-- Sampling rate, src/config.py line 8. -/
def SAMPLING_RATE : Nat := 16000

/-- Block size for Silero VAD, src/config.py line 9. -/
def CHUNK_SIZE : Nat := 512

/-- Number of lookback chunks, src/config.py line 10. -/
def LOOKBACK_CHUNKS : Nat := 5

/-- Maximum utterance duration in seconds, src/config.py line 12. -/
def MAX_SPEECH_SECS : Nat := 15

/-- Minimum caption refresh interval in seconds, src/config.py line 13. -/
def MIN_REFRESH_SECS : ℚ := 1/2

/-- Audio samples are 32-bit floats in the source; the segmenter only ever
concatenates them, truncates them, and multiplies them by `0.0`, so we embed
them as rationals. -/
abbrev Sample := ℚ

/-- Python `l[-n:]` on a numpy array: the last `n` samples (all of them when
the array is shorter than `n`). -/
def lastN (n : Nat) (l : List Sample) : List Sample := l.drop (l.length - n)

/-- Value `lookback_size = LOOKBACK_CHUNKS * CHUNK_SIZE` (src/audio.py). -/
def lookback_size : Nat := LOOKBACK_CHUNKS * CHUNK_SIZE

/-- Maximum utterance duration expressed in samples.  For an integer length,
the source's float test `len(speech) / SAMPLING_RATE > MAX_SPEECH_SECS` is
equivalent to `len(speech) > MAX_SPEECH_SECS * SAMPLING_RATE`. -/
def maxSpeechSamples : Nat := MAX_SPEECH_SECS * SAMPLING_RATE

/-! ### Transcriber counters (src/transcriber.py) -/

/-- Counters of `Transcriber` updated on every call (`number_inferences`,
`speech_secs`).  The third counter, `inference_secs`, accumulates wall-clock
inference time and is kept abstract; only the fact that the statistics line
divides by `number_inferences` matters to the claims. -/
structure TState where
  number_inferences : Nat
  speech_secs : ℚ
deriving DecidableEq

/-- Counter updates plus text production of `Transcriber.__call__`
(src/transcriber.py lines 31-55): increments `number_inferences`, accumulates
`speech_secs`, and returns the produced text.  The text pipeline (Moonshine
generation plus optional translation) is the parameter `T`. -/
def tcall (T : List Sample → String) (tr : TState) (speech : List Sample) :
    TState × String :=
  ({ number_inferences := tr.number_inferences + 1,
     speech_secs := tr.speech_secs + (speech.length : ℚ) / (SAMPLING_RATE : ℚ) },
   T speech)

/-! ### Caption utilities (src/utils.py) -/

/-- Python `str.replace` for a two-character pattern and two-character
replacement: leftmost, non-overlapping, the replacement is not rescanned.
Written by structural recursion on the character list so that it evaluates
inside the kernel (the `. `, `! `, `? ` patterns of `print_captions` are all
two characters long). -/
def replace2 (a b x y : Char) : List Char → List Char
  | [] => []
  | [c] => [c]
  | c :: d :: rest =>
    if c = a ∧ d = b then x :: y :: replace2 a b x y rest
    else c :: replace2 a b x y (d :: rest)

/-- Two-character `str.replace` lifted to `String`. -/
def pyReplace2 (s : String) (a b x y : Char) : String :=
  { data := replace2 a b x y s.data }

/-- Python `print_captions` (src/utils.py lines 57-70): joins the cached
captions and the current text with spaces, rewrites sentence-final
punctuation-plus-space into punctuation-plus-newline (the source's
`full_text.replace(". ", ".\n").replace("! ", "!\n").replace("? ", "?\n")`),
and publishes the result to `gui_queue`.  Returns the published string. -/
def print_captions (text : String) (caption_cache : List String) : String :=
  let full_text := String.intercalate " " (caption_cache ++ [text])
  let full_text :=
    pyReplace2 (pyReplace2 (pyReplace2 full_text '.' ' ' '.' '\n')
      '!' ' ' '!' '\n') '?' ' ' '?' '\n'
  full_text

/-- Result of `end_recording`: the updated caption cache, the speech buffer
after `speech *= 0.0`, the updated transcriber counters, and the messages
published. -/
structure EndRec where
  caption_cache : List String
  speech : List Sample
  tr : TState
  msgs : List String

/-- Python `end_recording` (src/utils.py lines 41-54): transcribe the buffer,
publish the captions when `do_print` is set, append the text to the cache, and
run `speech *= 0.0` — which zeroes the numpy buffer in place but does not
change its length. -/
def end_recording (T : List Sample → String) (speech : List Sample)
    (caption_cache : List String) (tr : TState) (do_print : Bool := true) :
    EndRec :=
  let r := tcall T tr speech
  { caption_cache := caption_cache ++ [r.2]
    speech := speech.map (fun _ => (0 : Sample))
    tr := r.1
    msgs := if do_print then [print_captions r.2 caption_cache] else [] }

/-! ### Silero VAD iterator (external object; fields touched by soft_reset) -/

/-- State of the Silero `VADIterator` object as seen by this repository: the
opaque model handle plus the three transient fields that `soft_reset`
(src/utils.py lines 72-80) overwrites. -/
structure VADIterator (μ : Type) where
  model : μ
  triggered : Bool
  temp_end : Nat
  current_sample : Nat
deriving DecidableEq

/-- Python `soft_reset` (src/utils.py lines 72-80): clears the transient
trigger/timing fields of the iterator without touching the model. -/
def soft_reset (v : VADIterator μ) : VADIterator μ :=
  { v with triggered := false, temp_end := 0, current_sample := 0 }

/-- Truthy dictionary returned by `vad_iterator(chunk)`: it may contain a
`"start"` key and/or an `"end"` key. -/
structure SpeechDict where
  hasStart : Bool
  hasEnd : Bool
deriving DecidableEq

/-! ### The segmenter loop (src/audio.py lines 117-170) -/

/-- Oracle data for one loop iteration of `audio_processing`: the chunk
dequeued from `q`, the VAD iterator state right after `vad_iterator(chunk)`,
the truthy dict that call returned (if any), and the wall-clock time during
the iteration. -/
structure Frame (μ : Type) where
  chunk : List Sample
  vadOut : VADIterator μ
  event : Option SpeechDict
  now : ℚ

/-- Loop-local state of `audio_processing`: the speech buffer, the recording
flag, the caption cache, the refresh timer `start_time` (unassigned in the
source until the first `start` event; initialised to `0` here), the VAD
iterator object, and the transcriber counters. -/
structure SegState (μ : Type) where
  speech : List Sample
  recording : Bool
  caption_cache : List String
  start_time : ℚ
  vad : VADIterator μ
  tr : TState
deriving DecidableEq

/-- Observable effects of one loop iteration: whether `end_recording` ran,
whether `soft_reset` ran, whether the non-finalizing refresh transcription
ran, and the strings put on `gui_queue`, in order. -/
structure StepOut where
  finalized : Bool
  softReset : Bool
  refreshed : Bool
  msgs : List String
deriving DecidableEq

/-- Tail of the `elif recording:` arm (src/audio.py lines 165-170): the
refresh check `time.time() - start_time > MIN_REFRESH_SECS` runs after the
(possible) forced finalize of the same iteration and is not guarded by
`recording`.  The arguments are the values of the loop variables at that
point; `st` is `start_time`, which the forced-finalize branch never touches. -/
def mkRefresh (T : List Sample → String) (f : Frame μ) (recording2 : Bool)
    (cache2 : List String) (speech2 : List Sample) (tr2 : TState)
    (vad2 : VADIterator μ) (st : ℚ) (msgs2 : List String) (cut : Bool) :
    SegState μ × StepOut :=
  if MIN_REFRESH_SECS < f.now - st then
    let r := tcall T tr2 speech2
    ({ speech := speech2, recording := recording2, caption_cache := cache2,
       start_time := f.now, vad := vad2, tr := r.1 },
     { finalized := cut, softReset := cut, refreshed := true,
       msgs := msgs2 ++ [print_captions r.2 cache2] })
  else
    ({ speech := speech2, recording := recording2, caption_cache := cache2,
       start_time := st, vad := vad2, tr := tr2 },
     { finalized := cut, softReset := cut, refreshed := false, msgs := msgs2 })

/-- One iteration of the `while not stop_event.is_set()` loop body
(src/audio.py lines 123-170), given the oracle data of the frame: append the
chunk, truncate to the lookback window when idle, then dispatch on the VAD
event exactly as the source's `if speech_dict: / elif recording:` does. -/
def step (T : List Sample → String) (s : SegState μ) (f : Frame μ) :
    SegState μ × StepOut :=
  let speech1 :=
    if s.recording = true then s.speech ++ f.chunk
    else lastN lookback_size (s.speech ++ f.chunk)
  match f.event with
  | some d =>
    let started := d.hasStart && !s.recording
    let recording1 := started || s.recording
    let start_time1 := if started = true then f.now else s.start_time
    let msgs1 := if started = true then ["STATUS: Обнаружена речь..."] else []
    if d.hasEnd && recording1 then
      let er := end_recording T speech1 s.caption_cache s.tr
      ({ speech := er.speech, recording := false,
         caption_cache := er.caption_cache, start_time := start_time1,
         vad := f.vadOut, tr := er.tr },
       { finalized := true, softReset := false, refreshed := false,
         msgs := msgs1 ++ er.msgs ++ ["STATUS: Речь обработана!"] })
    else
      ({ speech := speech1, recording := recording1,
         caption_cache := s.caption_cache, start_time := start_time1,
         vad := f.vadOut, tr := s.tr },
       { finalized := false, softReset := false, refreshed := false,
         msgs := msgs1 })
  | none =>
    if s.recording = true then
      if maxSpeechSamples < speech1.length then
        let er := end_recording T speech1 s.caption_cache s.tr
        mkRefresh T f false er.caption_cache er.speech er.tr
          (soft_reset f.vadOut) s.start_time
          (er.msgs ++ ["STATUS: Речь обработана (превышена максимальная длительность)!"])
          true
      else
        mkRefresh T f true s.caption_cache speech1 s.tr f.vadOut s.start_time
          [] false
    else
      ({ speech := speech1, recording := s.recording,
         caption_cache := s.caption_cache, start_time := s.start_time,
         vad := f.vadOut, tr := s.tr },
       { finalized := false, softReset := false, refreshed := false,
         msgs := [] })

/-- Iterated loop body: the state after consuming the given frames in order,
together with the per-iteration outputs. -/
def runSteps (T : List Sample → String) (s : SegState μ) :
    List (Frame μ) → SegState μ × List StepOut
  | [] => (s, [])
  | f :: fs =>
    let p := step T s f
    let q := runSteps T p.1 fs
    (q.1, p.2 :: q.2)

/-- Number of `end_recording` (finalizing) calls among the outputs. -/
def finCount (outs : List StepOut) : Nat := outs.countP (fun o => o.finalized)

/-- State at loop entry (src/audio.py lines 117-121): empty caption cache,
empty speech buffer, not recording. -/
def initSeg (vad0 : VADIterator μ) (tr0 : TState) : SegState μ :=
  { speech := [], recording := false, caption_cache := [], start_time := 0,
    vad := vad0, tr := tr0 }

/-- Shutdown drain of the `finally` block (src/audio.py lines 176-185): when
still recording, fold every chunk left in the queue into the buffer and run
`end_recording` once with `do_print=True`.  Returns the new state and the
messages published. -/
def shutdownDrain (T : List Sample → String) (s : SegState μ)
    (queued : List (List Sample)) : SegState μ × List String :=
  if s.recording = true then
    let speech1 := s.speech ++ queued.flatten
    let er := end_recording T speech1 s.caption_cache s.tr true
    ({ speech := er.speech, recording := s.recording,
       caption_cache := er.caption_cache, start_time := s.start_time,
       vad := s.vad, tr := er.tr }, er.msgs)
  else (s, [])

/-! ### Translators (src/translators.py) -/

/-- An `ArgosTranslator` as this repository sees it: the external
`argostranslate.translate.translate` call is an oracle that may raise, which
we embed as an `Except`-valued function. -/
structure ArgosT where
  inner : String → Except String String

/-- Python `ArgosTranslator.translate` (src/translators.py lines 94-113):
whitespace-only input short-circuits to `""`; an exception from the library
call is caught and the untranslated input text is returned. -/
def argosTranslate (tr : ArgosT) (text : String) : String :=
  if text.trim = "" then ""
  else
    match tr.inner text with
    | .ok translated => translated
    | .error _ => text

/-- Text produced by `Transcriber.__call__` (src/transcriber.py lines 31-55):
the ASR text, passed through the translator only when one is attached and the
text is non-blank after stripping. -/
def transcriberText (asr : List Sample → String)
    (translator : Option (String → String)) (speech : List Sample) : String :=
  let text := asr speech
  match translator with
  | some tf => if text.trim = "" then text else tf text
  | none => text

/-- Whole `Transcriber.__call__`: counter updates plus text production. -/
def transcriberCall (asr : List Sample → String)
    (translator : Option (String → String)) (tr : TState)
    (speech : List Sample) : TState × String :=
  tcall (transcriberText asr translator) tr speech

/-- Python `Transcriber.__init__` (src/transcriber.py lines 11-29): any rate
other than 16000 raises `ValueError` before the model is loaded or the
counters are created; otherwise the counters start at zero and one warm-up
call runs on a one-second all-zero buffer.  The parameter `T` is the text
pipeline of the constructed object (model plus tokenizer plus translator). -/
def transcriberInit (T : List Sample → String) (rate : Nat) :
    Except String TState :=
  if rate = 16000 then
    .ok (tcall T { number_inferences := 0, speech_secs := 0 }
      (List.replicate rate (0 : Sample))).1
  else
    .error "Moonshine поддерживает только частоту дискретизации 16000 Гц."

/-! ### The whole worker (src/audio.py lines 19-205) -/

/-- Observable outcome of one `audio_processing` worker run: the strings put
on `gui_queue` (statuses carry the `STATUS: ` prefix, captions do not),
whether the input stream was closed, whether `translator.close()` ran, and
the final segmenter state when the loop was reached. -/
structure WorkerResult (μ : Type) where
  msgs : List String
  streamClosed : Bool
  translatorClosed : Bool
  seg : Option (SegState μ)

/-- Final status put on `gui_queue` by the `finally` block. -/
def stoppedStatus : String := "STATUS: Обработка аудио остановлена."

/-- Control-flow skeleton of `audio_processing` (src/audio.py lines 19-205).
A failed transcriber initialisation, VAD initialisation, or device open makes
the function `return` before the `try/finally`, publishing only an error
status; a translator that was requested but failed to initialise is simply
absent (`translatorActive = false`).  Once the stream is open, the loop body
runs over the frames actually delivered before stop or exception (any prefix
— an exception inside the `try` is caught and falls through to `finally`),
then the `finally` block drains the queue, closes the stream, closes the
translator when present, and publishes the final stopped status.  The texts
of the three early error statuses are abstracted to fixed strings. -/
def audio_processing (translatorActive : Bool) (transcriberInitOk : Bool)
    (vadInitOk : Bool) (deviceOpenOk : Bool) (T : List Sample → String)
    (tr0 : TState) (vad0 : VADIterator μ) (frames : List (Frame μ))
    (queued : List (List Sample)) : WorkerResult μ :=
  if transcriberInitOk = false then
    { msgs := ["STATUS: Ошибка при инициализации транскрибера"],
      streamClosed := false, translatorClosed := false, seg := none }
  else if vadInitOk = false then
    { msgs := ["STATUS: Ошибка при инициализации VAD"],
      streamClosed := false, translatorClosed := false, seg := none }
  else if deviceOpenOk = false then
    { msgs := ["STATUS: Ошибка: не удалось открыть устройство ввода"],
      streamClosed := false, translatorClosed := false, seg := none }
  else
    let r := runSteps T (initSeg vad0 tr0) frames
    let d := shutdownDrain T r.1 queued
    { msgs := (r.2.map (fun o => o.msgs)).flatten ++ d.2 ++ [stoppedStatus],
      streamClosed := true, translatorClosed := translatorActive,
      seg := some d.1 }

/-! ### Concrete data used by counterexamples and witnesses -/

/-- Trivial VAD iterator state over a unit model. -/
def vadU : VADIterator Unit :=
  { model := (), triggered := true, temp_end := 3, current_sample := 7 }

/-- Transcriber counters right after the constructor warm-up. -/
def trWarm : TState := { number_inferences := 1, speech_secs := 1 }

/-- One all-zero chunk of the configured block size. -/
def zeroChunk : List Sample := List.replicate CHUNK_SIZE 0

/-- Frame with no VAD event (continuous speech as Silero reports it). -/
def speechFrame (t : ℚ) : Frame Unit :=
  { chunk := zeroChunk, vadOut := vadU, event := none, now := t }

/-- Frame whose VAD call returned `{'start': ...}`. -/
def startFrame (t : ℚ) : Frame Unit :=
  { chunk := zeroChunk, vadOut := vadU,
    event := some { hasStart := true, hasEnd := false }, now := t }

/-- Frame whose VAD call returned `{'end': ...}`. -/
def endFrame (t : ℚ) : Frame Unit :=
  { chunk := zeroChunk, vadOut := vadU,
    event := some { hasStart := false, hasEnd := true }, now := t }

/-- Tiny variants with a one-sample chunk, for cheap kernel evaluation. -/
def startFrame1 : Frame Unit :=
  { chunk := [0], vadOut := vadU,
    event := some { hasStart := true, hasEnd := false }, now := 0 }

/-- Tiny end frame with a one-sample chunk. -/
def endFrame1 : Frame Unit :=
  { chunk := [0], vadOut := vadU,
    event := some { hasStart := false, hasEnd := true }, now := 0 }

/-- A transcription function whose output contains a sentence break. -/
def abT : List Sample → String := fun _ => "A. B"

/-- Display text derived from a list of caption entries: the space-join with
sentence-final punctuation turned into newlines.  `print_captions text cache`
publishes exactly `cacheText (cache ++ [text])`. -/
def cacheText (entries : List String) : String :=
  pyReplace2 (pyReplace2 (pyReplace2 (String.intercalate " " entries)
    '.' ' ' '.' '\n') '!' ' ' '!' '\n') '?' ' ' '?' '\n'

/-- Index of the frame at which the forced max-duration cutoff fires when
event-free chunks of size `CHUNK_SIZE` are fed from state `s`. -/
def cutIndex (s : SegState μ) : Nat :=
  (maxSpeechSamples - s.speech.length) / CHUNK_SIZE

/-- A recording state right after a detected utterance start (empty buffer). -/
def recS : SegState Unit :=
  { speech := [], recording := true, caption_cache := [], start_time := 0,
    vad := vadU, tr := trWarm }

/-- A small recording state with one cached caption, used by witnesses. -/
def recS1 : SegState Unit :=
  { speech := [5], recording := true, caption_cache := ["X"], start_time := 0,
    vad := vadU, tr := trWarm }

/-- Event-free speech frames feeding `469 × CHUNK_SIZE > MAX_SPEECH_SECS ×
SAMPLING_RATE` samples. -/
def c2Frames : List (Frame Unit) := List.replicate 469 (speechFrame 0)

/-- A start frame followed by 468 event-free speech frames: enough to push
the buffer past the duration boundary. -/
def c3Frames : List (Frame Unit) :=
  startFrame 0 :: List.replicate 468 (speechFrame 0)

/-- Segmenter state right after the start frame of `c3Frames`. -/
def c3State1 : SegState Unit :=
  { speech := zeroChunk, recording := true, caption_cache := [],
    start_time := 0, vad := vadU, tr := trWarm }

/-- An event-free frame arriving at time 1, which triggers a refresh. -/
def refFrameA : Frame Unit :=
  { chunk := [7], vadOut := vadU, event := none, now := 1 }

/-- An event-free frame arriving at time 2, triggering the next refresh. -/
def refFrameB : Frame Unit :=
  { chunk := [9], vadOut := vadU, event := none, now := 2 }

/-! ## Basic lemmas about the loop -/

@[simp]
theorem runSteps_nil (T : List Sample → String) (s : SegState μ) :
    runSteps T s [] = (s, []) := rfl

@[simp]
theorem runSteps_cons (T : List Sample → String) (s : SegState μ) (f : Frame μ)
    (fs : List (Frame μ)) :
    runSteps T s (f :: fs) =
      ((runSteps T (step T s f).1 fs).1,
        (step T s f).2 :: (runSteps T (step T s f).1 fs).2) := rfl

theorem runSteps_append (T : List Sample → String) (s : SegState μ)
    (xs ys : List (Frame μ)) :
    runSteps T s (xs ++ ys) =
      ((runSteps T (runSteps T s xs).1 ys).1,
        (runSteps T s xs).2 ++ (runSteps T (runSteps T s xs).1 ys).2) := by
  induction xs generalizing s with
  | nil => simp
  | cons f xs ih => simp [ih]

@[simp]
theorem finCount_nil : finCount [] = 0 := rfl

@[simp]
theorem finCount_cons (o : StepOut) (os : List StepOut) :
    finCount (o :: os) = finCount os + (if o.finalized = true then 1 else 0) := by
  simp [finCount, List.countP_cons]

@[simp]
theorem finCount_append (xs ys : List StepOut) :
    finCount (xs ++ ys) = finCount xs + finCount ys := by
  simp [finCount, List.countP_append]

theorem lastN_length_le (n : Nat) (l : List Sample) : (lastN n l).length ≤ n := by
  simp only [lastN, List.length_drop]
  omega

theorem lastN_of_length_le (n : Nat) (l : List Sample) (h : l.length ≤ n) :
    lastN n l = l := by
  simp [lastN, Nat.sub_eq_zero_of_le h]

/-! ## Projections of the trailing refresh pass -/

theorem mkRefresh_fst_speech (T : List Sample → String) (f : Frame μ)
    (r2 : Bool) (c2 : List String) (sp2 : List Sample) (tr2 : TState)
    (v2 : VADIterator μ) (st : ℚ) (ms : List String) (cut : Bool) :
    (mkRefresh T f r2 c2 sp2 tr2 v2 st ms cut).1.speech = sp2 := by
  unfold mkRefresh; split <;> rfl

theorem mkRefresh_fst_recording (T : List Sample → String) (f : Frame μ)
    (r2 : Bool) (c2 : List String) (sp2 : List Sample) (tr2 : TState)
    (v2 : VADIterator μ) (st : ℚ) (ms : List String) (cut : Bool) :
    (mkRefresh T f r2 c2 sp2 tr2 v2 st ms cut).1.recording = r2 := by
  unfold mkRefresh; split <;> rfl

theorem mkRefresh_fst_cache (T : List Sample → String) (f : Frame μ)
    (r2 : Bool) (c2 : List String) (sp2 : List Sample) (tr2 : TState)
    (v2 : VADIterator μ) (st : ℚ) (ms : List String) (cut : Bool) :
    (mkRefresh T f r2 c2 sp2 tr2 v2 st ms cut).1.caption_cache = c2 := by
  unfold mkRefresh; split <;> rfl

theorem mkRefresh_fst_vad (T : List Sample → String) (f : Frame μ)
    (r2 : Bool) (c2 : List String) (sp2 : List Sample) (tr2 : TState)
    (v2 : VADIterator μ) (st : ℚ) (ms : List String) (cut : Bool) :
    (mkRefresh T f r2 c2 sp2 tr2 v2 st ms cut).1.vad = v2 := by
  unfold mkRefresh; split <;> rfl

theorem mkRefresh_snd_finalized (T : List Sample → String) (f : Frame μ)
    (r2 : Bool) (c2 : List String) (sp2 : List Sample) (tr2 : TState)
    (v2 : VADIterator μ) (st : ℚ) (ms : List String) (cut : Bool) :
    (mkRefresh T f r2 c2 sp2 tr2 v2 st ms cut).2.finalized = cut := by
  unfold mkRefresh; split <;> rfl

theorem mkRefresh_snd_softReset (T : List Sample → String) (f : Frame μ)
    (r2 : Bool) (c2 : List String) (sp2 : List Sample) (tr2 : TState)
    (v2 : VADIterator μ) (st : ℚ) (ms : List String) (cut : Bool) :
    (mkRefresh T f r2 c2 sp2 tr2 v2 st ms cut).2.softReset = cut := by
  unfold mkRefresh; split <;> rfl

theorem mkRefresh_start_time_or (T : List Sample → String) (f : Frame μ)
    (r2 : Bool) (c2 : List String) (sp2 : List Sample) (tr2 : TState)
    (v2 : VADIterator μ) (st : ℚ) (ms : List String) (cut : Bool) :
    (mkRefresh T f r2 c2 sp2 tr2 v2 st ms cut).1.start_time = st ∨
      (mkRefresh T f r2 c2 sp2 tr2 v2 st ms cut).1.start_time = f.now := by
  unfold mkRefresh; split
  · exact Or.inr rfl
  · exact Or.inl rfl

theorem mkRefresh_refreshed_iff (T : List Sample → String) (f : Frame μ)
    (r2 : Bool) (c2 : List String) (sp2 : List Sample) (tr2 : TState)
    (v2 : VADIterator μ) (st : ℚ) (ms : List String) (cut : Bool) :
    (mkRefresh T f r2 c2 sp2 tr2 v2 st ms cut).2.refreshed = true ↔
      MIN_REFRESH_SECS < f.now - st := by
  unfold mkRefresh; split <;> simp_all

theorem mkRefresh_refreshed_start_time (T : List Sample → String) (f : Frame μ)
    (r2 : Bool) (c2 : List String) (sp2 : List Sample) (tr2 : TState)
    (v2 : VADIterator μ) (st : ℚ) (ms : List String) (cut : Bool)
    (h : (mkRefresh T f r2 c2 sp2 tr2 v2 st ms cut).2.refreshed = true) :
    (mkRefresh T f r2 c2 sp2 tr2 v2 st ms cut).1.start_time = f.now := by
  unfold mkRefresh at h ⊢; split at h <;> simp_all

theorem mkRefresh_refreshed_msgs (T : List Sample → String) (f : Frame μ)
    (r2 : Bool) (c2 : List String) (sp2 : List Sample) (tr2 : TState)
    (v2 : VADIterator μ) (st : ℚ) (ms : List String) (cut : Bool)
    (h : (mkRefresh T f r2 c2 sp2 tr2 v2 st ms cut).2.refreshed = true) :
    (mkRefresh T f r2 c2 sp2 tr2 v2 st ms cut).2.msgs =
      ms ++ [print_captions (T sp2) c2] := by
  unfold mkRefresh at h ⊢; split at h <;> simp_all [tcall]

theorem mkRefresh_tr_mono (T : List Sample → String) (f : Frame μ)
    (r2 : Bool) (c2 : List String) (sp2 : List Sample) (tr2 : TState)
    (v2 : VADIterator μ) (st : ℚ) (ms : List String) (cut : Bool) :
    tr2.number_inferences ≤
      (mkRefresh T f r2 c2 sp2 tr2 v2 st ms cut).1.tr.number_inferences := by
  unfold mkRefresh; split <;> simp [tcall]

/-! ## Case lemmas for one loop iteration -/

theorem step_idle_none (T : List Sample → String) (s : SegState μ) (f : Frame μ)
    (hrec : s.recording = false) (hev : f.event = none) :
    step T s f =
      ({ speech := lastN lookback_size (s.speech ++ f.chunk), recording := false,
         caption_cache := s.caption_cache, start_time := s.start_time,
         vad := f.vadOut, tr := s.tr },
       { finalized := false, softReset := false, refreshed := false,
         msgs := [] }) := by
  simp [step, hev, hrec]

theorem step_rec_none_cut (T : List Sample → String) (s : SegState μ) (f : Frame μ)
    (hrec : s.recording = true) (hev : f.event = none)
    (hcut : maxSpeechSamples < (s.speech ++ f.chunk).length) :
    step T s f =
      mkRefresh T f false
        (end_recording T (s.speech ++ f.chunk) s.caption_cache s.tr).caption_cache
        (end_recording T (s.speech ++ f.chunk) s.caption_cache s.tr).speech
        (end_recording T (s.speech ++ f.chunk) s.caption_cache s.tr).tr
        (soft_reset f.vadOut) s.start_time
        ((end_recording T (s.speech ++ f.chunk) s.caption_cache s.tr).msgs ++
          ["STATUS: Речь обработана (превышена максимальная длительность)!"])
        true := by
  have hcut' : maxSpeechSamples < s.speech.length + f.chunk.length := by
    simpa using hcut
  simp [step, hev, hrec, hcut']

theorem step_rec_none_nocut (T : List Sample → String) (s : SegState μ)
    (f : Frame μ) (hrec : s.recording = true) (hev : f.event = none)
    (hcut : ¬ maxSpeechSamples < (s.speech ++ f.chunk).length) :
    step T s f =
      mkRefresh T f true s.caption_cache (s.speech ++ f.chunk) s.tr f.vadOut
        s.start_time [] false := by
  have hcut' : ¬ maxSpeechSamples < s.speech.length + f.chunk.length := by
    simpa using hcut
  simp [step, hev, hrec, hcut']

theorem step_rec_some_end (T : List Sample → String) (s : SegState μ)
    (f : Frame μ) (d : SpeechDict) (hrec : s.recording = true)
    (hev : f.event = some d) (hEnd : d.hasEnd = true) :
    step T s f =
      ({ speech := (end_recording T (s.speech ++ f.chunk) s.caption_cache s.tr).speech,
         recording := false,
         caption_cache :=
           (end_recording T (s.speech ++ f.chunk) s.caption_cache s.tr).caption_cache,
         start_time := s.start_time, vad := f.vadOut,
         tr := (end_recording T (s.speech ++ f.chunk) s.caption_cache s.tr).tr },
       { finalized := true, softReset := false, refreshed := false,
         msgs := (end_recording T (s.speech ++ f.chunk) s.caption_cache s.tr).msgs ++
           ["STATUS: Речь обработана!"] }) := by
  simp [step, hev, hrec, hEnd]

theorem step_rec_some_noend (T : List Sample → String) (s : SegState μ)
    (f : Frame μ) (d : SpeechDict) (hrec : s.recording = true)
    (hev : f.event = some d) (hEnd : d.hasEnd = false) :
    step T s f =
      ({ speech := s.speech ++ f.chunk, recording := true,
         caption_cache := s.caption_cache, start_time := s.start_time,
         vad := f.vadOut, tr := s.tr },
       { finalized := false, softReset := false, refreshed := false,
         msgs := [] }) := by
  simp [step, hev, hrec, hEnd]

theorem step_idle_some_nostart (T : List Sample → String) (s : SegState μ)
    (f : Frame μ) (d : SpeechDict) (hrec : s.recording = false)
    (hev : f.event = some d) (hStart : d.hasStart = false) :
    step T s f =
      ({ speech := lastN lookback_size (s.speech ++ f.chunk), recording := false,
         caption_cache := s.caption_cache, start_time := s.start_time,
         vad := f.vadOut, tr := s.tr },
       { finalized := false, softReset := false, refreshed := false,
         msgs := [] }) := by
  simp [step, hev, hrec, hStart]

theorem step_idle_some_start_noend (T : List Sample → String) (s : SegState μ)
    (f : Frame μ) (d : SpeechDict) (hrec : s.recording = false)
    (hev : f.event = some d) (hStart : d.hasStart = true)
    (hEnd : d.hasEnd = false) :
    step T s f =
      ({ speech := lastN lookback_size (s.speech ++ f.chunk), recording := true,
         caption_cache := s.caption_cache, start_time := f.now,
         vad := f.vadOut, tr := s.tr },
       { finalized := false, softReset := false, refreshed := false,
         msgs := ["STATUS: Обнаружена речь..."] }) := by
  simp [step, hev, hrec, hStart, hEnd]

theorem step_idle_some_start_end (T : List Sample → String) (s : SegState μ)
    (f : Frame μ) (d : SpeechDict) (hrec : s.recording = false)
    (hev : f.event = some d) (hStart : d.hasStart = true)
    (hEnd : d.hasEnd = true) :
    step T s f =
      ({ speech :=
           (end_recording T (lastN lookback_size (s.speech ++ f.chunk))
             s.caption_cache s.tr).speech,
         recording := false,
         caption_cache :=
           (end_recording T (lastN lookback_size (s.speech ++ f.chunk))
             s.caption_cache s.tr).caption_cache,
         start_time := f.now, vad := f.vadOut,
         tr := (end_recording T (lastN lookback_size (s.speech ++ f.chunk))
           s.caption_cache s.tr).tr },
       { finalized := true, softReset := false, refreshed := false,
         msgs := ["STATUS: Обнаружена речь..."] ++
           (end_recording T (lastN lookback_size (s.speech ++ f.chunk))
             s.caption_cache s.tr).msgs ++ ["STATUS: Речь обработана!"] }) := by
  simp [step, hev, hrec, hStart, hEnd]

/-! ## Derived facts about one iteration -/

theorem step_cache_of_not_finalized (T : List Sample → String) (s : SegState μ)
    (f : Frame μ) (h : (step T s f).2.finalized = false) :
    (step T s f).1.caption_cache = s.caption_cache := by
  rcases hev : f.event with _ | d
  · cases hrec : s.recording
    · rw [step_idle_none T s f hrec hev]
    · by_cases hcut : maxSpeechSamples < (s.speech ++ f.chunk).length
      · rw [step_rec_none_cut T s f hrec hev hcut, mkRefresh_snd_finalized] at h
        simp at h
      · rw [step_rec_none_nocut T s f hrec hev hcut, mkRefresh_fst_cache]
  · cases hrec : s.recording
    · cases hS : d.hasStart
      · rw [step_idle_some_nostart T s f d hrec hev hS]
      · cases hE : d.hasEnd
        · rw [step_idle_some_start_noend T s f d hrec hev hS hE]
        · rw [step_idle_some_start_end T s f d hrec hev hS hE] at h
          simp at h
    · cases hE : d.hasEnd
      · rw [step_rec_some_noend T s f d hrec hev hE]
      · rw [step_rec_some_end T s f d hrec hev hE] at h
        simp at h

theorem step_cache_of_finalized (T : List Sample → String) (s : SegState μ)
    (f : Frame μ) (h : (step T s f).2.finalized = true) :
    ∃ t, (step T s f).1.caption_cache = s.caption_cache ++ [t] := by
  rcases hev : f.event with _ | d
  · cases hrec : s.recording
    · rw [step_idle_none T s f hrec hev] at h
      simp at h
    · by_cases hcut : maxSpeechSamples < (s.speech ++ f.chunk).length
      · refine ⟨T (s.speech ++ f.chunk), ?_⟩
        rw [step_rec_none_cut T s f hrec hev hcut, mkRefresh_fst_cache]
        simp [end_recording, tcall]
      · rw [step_rec_none_nocut T s f hrec hev hcut, mkRefresh_snd_finalized] at h
        simp at h
  · cases hrec : s.recording
    · cases hS : d.hasStart
      · rw [step_idle_some_nostart T s f d hrec hev hS] at h
        simp at h
      · cases hE : d.hasEnd
        · rw [step_idle_some_start_noend T s f d hrec hev hS hE] at h
          simp at h
        · refine ⟨T (lastN lookback_size (s.speech ++ f.chunk)), ?_⟩
          rw [step_idle_some_start_end T s f d hrec hev hS hE]
          simp [end_recording, tcall]
    · cases hE : d.hasEnd
      · rw [step_rec_some_noend T s f d hrec hev hE] at h
        simp at h
      · refine ⟨T (s.speech ++ f.chunk), ?_⟩
        rw [step_rec_some_end T s f d hrec hev hE]
        simp [end_recording, tcall]

theorem step_cache_length (T : List Sample → String) (s : SegState μ)
    (f : Frame μ) :
    (step T s f).1.caption_cache.length =
      s.caption_cache.length +
        (if (step T s f).2.finalized = true then 1 else 0) := by
  cases h : (step T s f).2.finalized
  · simp [step_cache_of_not_finalized T s f h]
  · obtain ⟨t, ht⟩ := step_cache_of_finalized T s f h
    simp [ht]

theorem step_tr_mono (T : List Sample → String) (s : SegState μ) (f : Frame μ) :
    s.tr.number_inferences ≤ (step T s f).1.tr.number_inferences := by
  rcases hev : f.event with _ | d
  · cases hrec : s.recording
    · rw [step_idle_none T s f hrec hev]
    · by_cases hcut : maxSpeechSamples < (s.speech ++ f.chunk).length
      · rw [step_rec_none_cut T s f hrec hev hcut]
        refine le_trans ?_ (mkRefresh_tr_mono _ _ _ _ _ _ _ _ _ _)
        simp [end_recording, tcall]
      · rw [step_rec_none_nocut T s f hrec hev hcut]
        exact mkRefresh_tr_mono _ _ _ _ _ _ _ _ _ _
  · cases hrec : s.recording
    · cases hS : d.hasStart
      · rw [step_idle_some_nostart T s f d hrec hev hS]
      · cases hE : d.hasEnd
        · rw [step_idle_some_start_noend T s f d hrec hev hS hE]
        · rw [step_idle_some_start_end T s f d hrec hev hS hE]
          simp [end_recording, tcall]
    · cases hE : d.hasEnd
      · rw [step_rec_some_noend T s f d hrec hev hE]
      · rw [step_rec_some_end T s f d hrec hev hE]
        simp [end_recording, tcall]

theorem step_speech_zero_of_finalized (T : List Sample → String)
    (s : SegState μ) (f : Frame μ) (h : (step T s f).2.finalized = true) :
    ∀ x ∈ (step T s f).1.speech, x = 0 := by
  rcases hev : f.event with _ | d
  · cases hrec : s.recording
    · rw [step_idle_none T s f hrec hev] at h
      simp at h
    · by_cases hcut : maxSpeechSamples < (s.speech ++ f.chunk).length
      · rw [step_rec_none_cut T s f hrec hev hcut, mkRefresh_fst_speech]
        simp [end_recording]
      · rw [step_rec_none_nocut T s f hrec hev hcut, mkRefresh_snd_finalized] at h
        simp at h
  · cases hrec : s.recording
    · cases hS : d.hasStart
      · rw [step_idle_some_nostart T s f d hrec hev hS] at h
        simp at h
      · cases hE : d.hasEnd
        · rw [step_idle_some_start_noend T s f d hrec hev hS hE] at h
          simp at h
        · rw [step_idle_some_start_end T s f d hrec hev hS hE]
          simp [end_recording]
    · cases hE : d.hasEnd
      · rw [step_rec_some_noend T s f d hrec hev hE] at h
        simp at h
      · rw [step_rec_some_end T s f d hrec hev hE]
        simp [end_recording]

theorem step_start_time_or (T : List Sample → String) (s : SegState μ)
    (f : Frame μ) :
    (step T s f).1.start_time = s.start_time ∨
      (step T s f).1.start_time = f.now := by
  rcases hev : f.event with _ | d
  · cases hrec : s.recording
    · rw [step_idle_none T s f hrec hev]
      exact Or.inl rfl
    · by_cases hcut : maxSpeechSamples < (s.speech ++ f.chunk).length
      · rw [step_rec_none_cut T s f hrec hev hcut]
        exact mkRefresh_start_time_or _ _ _ _ _ _ _ _ _ _
      · rw [step_rec_none_nocut T s f hrec hev hcut]
        exact mkRefresh_start_time_or _ _ _ _ _ _ _ _ _ _
  · cases hrec : s.recording
    · cases hS : d.hasStart
      · rw [step_idle_some_nostart T s f d hrec hev hS]
        exact Or.inl rfl
      · cases hE : d.hasEnd
        · rw [step_idle_some_start_noend T s f d hrec hev hS hE]
          exact Or.inr rfl
        · rw [step_idle_some_start_end T s f d hrec hev hS hE]
          exact Or.inr rfl
    · cases hE : d.hasEnd
      · rw [step_rec_some_noend T s f d hrec hev hE]
        exact Or.inl rfl
      · rw [step_rec_some_end T s f d hrec hev hE]
        exact Or.inl rfl

theorem step_refreshed (T : List Sample → String) (s : SegState μ) (f : Frame μ)
    (h : (step T s f).2.refreshed = true) :
    f.event = none ∧ s.recording = true ∧
      MIN_REFRESH_SECS < f.now - s.start_time ∧
      (step T s f).1.start_time = f.now := by
  rcases hev : f.event with _ | d
  · cases hrec : s.recording
    · rw [step_idle_none T s f hrec hev] at h
      simp at h
    · by_cases hcut : maxSpeechSamples < (s.speech ++ f.chunk).length
      · rw [step_rec_none_cut T s f hrec hev hcut] at h ⊢
        exact ⟨rfl, rfl, (mkRefresh_refreshed_iff _ _ _ _ _ _ _ _ _ _).mp h,
          mkRefresh_refreshed_start_time _ _ _ _ _ _ _ _ _ _ h⟩
      · rw [step_rec_none_nocut T s f hrec hev hcut] at h ⊢
        exact ⟨rfl, rfl, (mkRefresh_refreshed_iff _ _ _ _ _ _ _ _ _ _).mp h,
          mkRefresh_refreshed_start_time _ _ _ _ _ _ _ _ _ _ h⟩
  · cases hrec : s.recording
    · cases hS : d.hasStart
      · rw [step_idle_some_nostart T s f d hrec hev hS] at h
        simp at h
      · cases hE : d.hasEnd
        · rw [step_idle_some_start_noend T s f d hrec hev hS hE] at h
          simp at h
        · rw [step_idle_some_start_end T s f d hrec hev hS hE] at h
          simp at h
    · cases hE : d.hasEnd
      · rw [step_rec_some_noend T s f d hrec hev hE] at h
        simp at h
      · rw [step_rec_some_end T s f d hrec hev hE] at h
        simp at h

theorem step_refresh_not_finalized_shape (T : List Sample → String)
    (s : SegState μ) (f : Frame μ) (hr : (step T s f).2.refreshed = true)
    (hnf : (step T s f).2.finalized = false) :
    (step T s f).1.caption_cache = s.caption_cache ∧
      (step T s f).1.speech = s.speech ++ f.chunk ∧
      print_captions (T (s.speech ++ f.chunk)) s.caption_cache ∈
        (step T s f).2.msgs := by
  obtain ⟨hev, hrec, -, -⟩ := step_refreshed T s f hr
  by_cases hcut : maxSpeechSamples < (s.speech ++ f.chunk).length
  · rw [step_rec_none_cut T s f hrec hev hcut, mkRefresh_snd_finalized] at hnf
    simp at hnf
  · rw [step_rec_none_nocut T s f hrec hev hcut] at hr ⊢
    refine ⟨mkRefresh_fst_cache _ _ _ _ _ _ _ _ _ _,
      mkRefresh_fst_speech _ _ _ _ _ _ _ _ _ _, ?_⟩
    rw [mkRefresh_refreshed_msgs _ _ _ _ _ _ _ _ _ _ hr]
    simp

theorem step_idle_speech_len (T : List Sample → String) (s : SegState μ)
    (f : Frame μ) (hrec : s.recording = false) :
    (step T s f).1.speech.length ≤ lookback_size := by
  rcases hev : f.event with _ | d
  · rw [step_idle_none T s f hrec hev]
    simp only [lastN, List.length_drop]
    omega
  · cases hS : d.hasStart
    · rw [step_idle_some_nostart T s f d hrec hev hS]
      simp only [lastN, List.length_drop]
      omega
    · cases hE : d.hasEnd
      · rw [step_idle_some_start_noend T s f d hrec hev hS hE]
        simp only [lastN, List.length_drop]
        omega
      · rw [step_idle_some_start_end T s f d hrec hev hS hE]
        simp only [end_recording, tcall, List.length_map, lastN, List.length_drop]
        omega

theorem step_idle_recording_nostart (T : List Sample → String) (s : SegState μ)
    (f : Frame μ) (hrec : s.recording = false)
    (hns : ∀ d, f.event = some d → d.hasStart = false) :
    (step T s f).1.recording = false := by
  rcases hev : f.event with _ | d
  · rw [step_idle_none T s f hrec hev]
  · rw [step_idle_some_nostart T s f d hrec hev (hns d hev)]

/-! ## Run-level lemmas -/

theorem maxSpeechSamples_eq : maxSpeechSamples = 240000 := rfl

theorem lookback_size_eq : lookback_size = 2560 := rfl

theorem runSteps_append_fst (T : List Sample → String) (s : SegState μ)
    (xs ys : List (Frame μ)) :
    (runSteps T s (xs ++ ys)).1 = (runSteps T (runSteps T s xs).1 ys).1 := by
  rw [runSteps_append]

theorem runSteps_singleton_fst (T : List Sample → String) (s : SegState μ)
    (f : Frame μ) : (runSteps T s [f]).1 = (step T s f).1 := rfl

theorem runSteps_cache_length (T : List Sample → String) (s : SegState μ)
    (fs : List (Frame μ)) :
    (runSteps T s fs).1.caption_cache.length =
      s.caption_cache.length + finCount (runSteps T s fs).2 := by
  induction fs generalizing s with
  | nil => simp
  | cons f fs ih =>
    simp only [runSteps_cons, finCount_cons]
    rw [ih, step_cache_length T s f]
    by_cases hf : (step T s f).2.finalized = true
    · simp only [hf, if_true]
      omega
    · simp only [hf, if_false]
      omega

theorem runSteps_tr_mono (T : List Sample → String) (s : SegState μ)
    (fs : List (Frame μ)) :
    s.tr.number_inferences ≤ (runSteps T s fs).1.tr.number_inferences := by
  induction fs generalizing s with
  | nil => simp
  | cons f fs ih =>
    simp only [runSteps_cons]
    exact le_trans (step_tr_mono T s f) (ih ((step T s f).1))

theorem runSteps_start_time_ge (T : List Sample → String) (s : SegState μ)
    (fs : List (Frame μ)) (t : ℚ) (hs : t ≤ s.start_time)
    (hf : ∀ f ∈ fs, t ≤ f.now) :
    t ≤ (runSteps T s fs).1.start_time := by
  induction fs generalizing s with
  | nil => simpa using hs
  | cons f fs ih =>
    simp only [runSteps_cons]
    refine ih ((step T s f).1) ?_ (fun g hg => hf g (List.mem_cons_of_mem f hg))
    rcases step_start_time_or T s f with h | h
    · rw [h]; exact hs
    · rw [h]; exact hf f (List.mem_cons_self f fs)

theorem runSteps_idle_none (T : List Sample → String) (fs : List (Frame μ)) :
    ∀ s : SegState μ, s.recording = false → (∀ f ∈ fs, f.event = none) →
      (runSteps T s fs).1.recording = false ∧
        finCount (runSteps T s fs).2 = 0 := by
  induction fs with
  | nil => intro s hs _; exact ⟨by simpa using hs, by simp⟩
  | cons f fs ih =>
    intro s hs hev
    have hev0 : f.event = none := hev f (List.mem_cons_self f fs)
    have hstep := step_idle_none T s f hs hev0
    have h1 : (step T s f).1.recording = false := by rw [hstep]
    have h2 : (step T s f).2.finalized = false := by rw [hstep]
    obtain ⟨ra, rb⟩ :=
      ih ((step T s f).1) h1 (fun g hg => hev g (List.mem_cons_of_mem f hg))
    simp only [runSteps_cons, finCount_cons]
    exact ⟨ra, by simp [rb, h2]⟩

theorem flatten_chunk_length (fs : List (Frame μ)) :
    (∀ f ∈ fs, f.chunk.length = CHUNK_SIZE) →
      ((fs.map (fun f => f.chunk)).flatten).length = CHUNK_SIZE * fs.length := by
  induction fs with
  | nil => intro _; simp
  | cons f fs ih =>
    intro hch
    simp only [List.map_cons, List.flatten_cons, List.length_append,
      List.length_cons]
    rw [hch f (List.mem_cons_self f fs),
      ih (fun g hg => hch g (List.mem_cons_of_mem f hg))]
    ring

theorem runSteps_rec_none_below (T : List Sample → String)
    (fs : List (Frame μ)) :
    ∀ s : SegState μ, s.recording = true → (∀ f ∈ fs, f.event = none) →
      (∀ f ∈ fs, f.chunk.length = CHUNK_SIZE) →
      s.speech.length + CHUNK_SIZE * fs.length ≤ maxSpeechSamples →
      (runSteps T s fs).1.recording = true ∧
        (runSteps T s fs).1.speech =
          s.speech ++ (fs.map (fun f => f.chunk)).flatten ∧
        (runSteps T s fs).1.caption_cache = s.caption_cache ∧
        finCount (runSteps T s fs).2 = 0 := by
  induction fs with
  | nil => intro s h1 _ _ _; exact ⟨by simpa using h1, by simp, by simp, by simp⟩
  | cons f fs ih =>
    intro s h1 hev hch hlen
    have hev0 : f.event = none := hev f (List.mem_cons_self f fs)
    have hch0 : f.chunk.length = CHUNK_SIZE := hch f (List.mem_cons_self f fs)
    have hcut : ¬ maxSpeechSamples < (s.speech ++ f.chunk).length := by
      simp only [List.length_append, hch0, CHUNK_SIZE, List.length_cons,
        maxSpeechSamples_eq] at hlen ⊢
      omega
    have hstep := step_rec_none_nocut T s f h1 hev0 hcut
    have h1' : (step T s f).1.recording = true := by
      rw [hstep, mkRefresh_fst_recording]
    have hsp : (step T s f).1.speech = s.speech ++ f.chunk := by
      rw [hstep, mkRefresh_fst_speech]
    have hca : (step T s f).1.caption_cache = s.caption_cache := by
      rw [hstep, mkRefresh_fst_cache]
    have hfin : (step T s f).2.finalized = false := by
      rw [hstep, mkRefresh_snd_finalized]
    have hlen' : (step T s f).1.speech.length + CHUNK_SIZE * fs.length ≤
        maxSpeechSamples := by
      simp only [hsp, List.length_append, hch0, CHUNK_SIZE, List.length_cons,
        maxSpeechSamples_eq] at hlen ⊢
      omega
    obtain ⟨ra, rb, rc, rd⟩ := ih ((step T s f).1) h1'
      (fun g hg => hev g (List.mem_cons_of_mem f hg))
      (fun g hg => hch g (List.mem_cons_of_mem f hg)) hlen'
    simp only [runSteps_cons, finCount_cons]
    refine ⟨ra, ?_, rc.trans hca, by simp [rd, hfin]⟩
    rw [rb, hsp]
    simp [List.append_assoc]

theorem runSteps_idle_nostart (T : List Sample → String) (fs : List (Frame μ)) :
    ∀ s : SegState μ, s.recording = false →
      (∀ f ∈ fs, ∀ d, f.event = some d → d.hasStart = false) →
      (runSteps T s fs).1.recording = false := by
  induction fs with
  | nil => intro s hs _; simpa using hs
  | cons f fs ih =>
    intro s hs hns
    simp only [runSteps_cons]
    exact ih ((step T s f).1)
      (step_idle_recording_nostart T s f hs
        (fun d hd => hns f (List.mem_cons_self f fs) d hd))
      (fun g hg d hd => hns g (List.mem_cons_of_mem f hg) d hd)

theorem take_succ_get {α : Type} (l : List α) (k : Nat) (hk : k < l.length) :
    l.take (k + 1) = l.take k ++ [l.get ⟨k, hk⟩] := by
  rw [List.take_succ, List.getElem?_eq_getElem hk]
  rfl

theorem print_captions_eq_cacheText (t : String) (cache : List String) :
    print_captions t cache = cacheText (cache ++ [t]) := rfl

theorem mkRefresh_mem_msgs (T : List Sample → String) (f : Frame μ)
    (r2 : Bool) (c2 : List String) (sp2 : List Sample) (tr2 : TState)
    (v2 : VADIterator μ) (st : ℚ) (ms : List String) (cut : Bool) (x : String)
    (hx : x ∈ ms) : x ∈ (mkRefresh T f r2 c2 sp2 tr2 v2 st ms cut).2.msgs := by
  unfold mkRefresh; split
  · exact List.mem_append_left _ hx
  · exact hx

/-! ## Claim theorems -/

/-- C1: from an idle state, a frame whose VAD call reports `start` followed by
a frame whose VAD call reports `end` produces exactly one finalizing
transcription call and grows CaptionCache by exactly one entry; moreover, over
any run the cache length grows by exactly the number of finalizing calls, so
`end_recording` is the only operation that appends to it. -/
theorem c1_start_end (T : List Sample → String) (s : SegState μ)
    (f1 f2 : Frame μ) (d2 : SpeechDict) (hidle : s.recording = false)
    (h1 : f1.event = some { hasStart := true, hasEnd := false })
    (h2 : f2.event = some d2) (h2e : d2.hasEnd = true) :
    finCount (runSteps T s [f1, f2]).2 = 1 ∧
      (runSteps T s [f1, f2]).1.caption_cache.length =
        s.caption_cache.length + 1 ∧
      (∀ (s' : SegState μ) (fs : List (Frame μ)),
        (runSteps T s' fs).1.caption_cache.length =
          s'.caption_cache.length + finCount (runSteps T s' fs).2) := by
  have e1 := step_idle_some_start_noend T s f1 { hasStart := true, hasEnd := false }
    hidle h1 rfl rfl
  have r1 : (step T s f1).1.recording = true := by rw [e1]
  have o1f : (step T s f1).2.finalized = false := by rw [e1]
  have cc1 : (step T s f1).1.caption_cache = s.caption_cache := by rw [e1]
  have e2 := step_rec_some_end T (step T s f1).1 f2 d2 r1 h2 h2e
  have o2f : (step T (step T s f1).1 f2).2.finalized = true := by rw [e2]
  have cc2 : (step T (step T s f1).1 f2).1.caption_cache =
      (step T s f1).1.caption_cache ++
        [T ((step T s f1).1.speech ++ f2.chunk)] := by
    rw [e2]
    simp [end_recording, tcall]
  refine ⟨?_, ?_, fun s' fs => runSteps_cache_length T s' fs⟩
  · simp [finCount_cons, o1f, o2f]
  · simp only [runSteps_cons, runSteps_nil]
    rw [cc2, cc1]
    simp

/-- C1 witness: the two-frame start/end scenario instantiated at the initial
state with concrete frames. -/
theorem c1_witness :
    (initSeg vadU trWarm).recording = false ∧
      startFrame1.event = some { hasStart := true, hasEnd := false } ∧
      endFrame1.event = some { hasStart := false, hasEnd := true } ∧
      (finCount (runSteps abT (initSeg vadU trWarm) [startFrame1, endFrame1]).2 = 1 ∧
        (runSteps abT (initSeg vadU trWarm)
            [startFrame1, endFrame1]).1.caption_cache.length =
          (initSeg vadU trWarm).caption_cache.length + 1 ∧
        (∀ (s' : SegState Unit) (fs : List (Frame Unit)),
          (runSteps abT s' fs).1.caption_cache.length =
            s'.caption_cache.length + finCount (runSteps abT s' fs).2)) :=
  ⟨rfl, rfl, rfl,
    c1_start_end abT (initSeg vadU trWarm) startFrame1 endFrame1
      { hasStart := false, hasEnd := true } rfl rfl rfl rfl⟩

/-- C6: when shutdown happens while recording, the drain of the `finally`
block folds every queued chunk into the accumulator and performs exactly one
finalizing transcription call (one new cache entry, one counter increment)
over the full buffer, publishing the corresponding captions. -/
theorem c6_shutdown_drain (T : List Sample → String) (s : SegState μ)
    (queued : List (List Sample)) (hrec : s.recording = true) :
    (shutdownDrain T s queued).1.caption_cache =
        s.caption_cache ++ [T (s.speech ++ queued.flatten)] ∧
      (shutdownDrain T s queued).1.tr.number_inferences =
        s.tr.number_inferences + 1 ∧
      (shutdownDrain T s queued).2 =
        [print_captions (T (s.speech ++ queued.flatten)) s.caption_cache] := by
  refine ⟨?_, ?_, ?_⟩ <;> simp [shutdownDrain, hrec, end_recording, tcall]

/-- C6 witness: draining two queued chunks from a concrete recording state. -/
theorem c6_witness :
    recS1.recording = true ∧
      ((shutdownDrain abT recS1 [[1], [2]]).1.caption_cache =
          recS1.caption_cache ++ [abT (recS1.speech ++ [[1], [2]].flatten)] ∧
        (shutdownDrain abT recS1 [[1], [2]]).1.tr.number_inferences =
          recS1.tr.number_inferences + 1 ∧
        (shutdownDrain abT recS1 [[1], [2]]).2 =
          [print_captions (abT (recS1.speech ++ [[1], [2]].flatten))
            recS1.caption_cache]) :=
  ⟨rfl, c6_shutdown_drain abT recS1 [[1], [2]] rfl⟩

/-- C8: when the Argos library call raises on every input, the text returned
by `Transcriber.__call__` is the untranslated ASR text, and the segmenter run
with the failing translator is literally the run with no translator, so the
session keeps processing every subsequent frame. -/
theorem c8_translation_failure (tr : ArgosT) (err : String → String)
    (hfail : ∀ t, tr.inner t = .error (err t)) :
    (∀ (asr : List Sample → String) (st : TState) (speech : List Sample),
        (transcriberCall asr (some (argosTranslate tr)) st speech).2 =
          asr speech) ∧
      (∀ (asr : List Sample → String) (s : SegState μ) (fs : List (Frame μ)),
        runSteps (transcriberText asr (some (argosTranslate tr))) s fs =
          runSteps (transcriberText asr none) s fs) := by
  have key : ∀ (asr : List Sample → String) (speech : List Sample),
      transcriberText asr (some (argosTranslate tr)) speech = asr speech := by
    intro asr speech
    unfold transcriberText
    by_cases h : (asr speech).trim = ""
    · simp [h]
    · simp [h, argosTranslate, hfail (asr speech)]
  constructor
  · intro asr st speech
    simp [transcriberCall, tcall, key]
  · intro asr s fs
    have hT : transcriberText asr (some (argosTranslate tr)) =
        transcriberText asr none := by
      funext sp
      rw [key]
      rfl
    rw [hT]

/-- An always-raising Argos library call. -/
def failT : ArgosT := { inner := fun _ => .error "boom" }

/-- C8 witness: the always-failing translator at a concrete transcription. -/
theorem c8_witness :
    (∀ t, failT.inner t = Except.error ((fun _ => "boom") t)) ∧
      (transcriberCall (fun _ => "hello") (some (argosTranslate failT)) trWarm
        [1]).2 = "hello" :=
  ⟨fun _ => rfl,
    (@c8_translation_failure Unit failT (fun _ => "boom") (fun _ => rfl)).1
      (fun _ => "hello") trWarm [1]⟩

/-- C9 (amended): when transcriber, VAD and device all initialise, every exit
of the worker loop — normal stop or caught exception, i.e. any prefix of
frames, any queue left — runs the teardown: the stream is closed, the
translator is closed whenever one is active, and the final stopped status is
the last message published.  (The claim's further assertion that this also
holds for device-open and initialisation failures is refuted separately: those
paths return before the teardown.) -/
theorem c9_teardown (translatorActive : Bool) (T : List Sample → String)
    (tr0 : TState) (vad0 : VADIterator μ) (frames : List (Frame μ))
    (queued : List (List Sample)) :
    (audio_processing translatorActive true true true T tr0 vad0 frames
        queued).streamClosed = true ∧
      (audio_processing translatorActive true true true T tr0 vad0 frames
          queued).translatorClosed = translatorActive ∧
      (audio_processing translatorActive true true true T tr0 vad0 frames
          queued).msgs.getLast? = some stoppedStatus := by
  refine ⟨rfl, rfl, ?_⟩
  show (((runSteps T (initSeg vad0 tr0) frames).2.map (fun o => o.msgs)).flatten
      ++ (shutdownDrain T (runSteps T (initSeg vad0 tr0) frames).1 queued).2
      ++ [stoppedStatus]).getLast? = some stoppedStatus
  exact List.getLast?_concat _

/-- C9 counterexample: a device-open failure with an active translator skips
the teardown entirely — `translator.close()` never runs, the stream flag is
untouched, and the final stopped status is never published. -/
theorem c9_counterexample :
    (audio_processing true true true false (fun _ => "") trWarm vadU []
        []).translatorClosed = false ∧
      (audio_processing true true true false (fun _ => "") trWarm vadU []
          []).streamClosed = false ∧
      stoppedStatus ∉
        (audio_processing true true true false (fun _ => "") trWarm vadU []
          []).msgs := by
  refine ⟨rfl, rfl, ?_⟩
  decide

/-- C10: constructing the transcriber with a rate other than 16000 yields the
`ValueError` independently of the loaded model (no counters are created);
with rate 16000 the warm-up call leaves `number_inferences = 1`; and from any
state with at least one recorded inference, the loop and the shutdown drain
keep `number_inferences ≥ 1`, so the mean-inference-time division in the
final statistics never divides by zero. -/
theorem c10_transcriber_init (T1 T2 : List Sample → String) (rate : Nat)
    (hrate : rate ≠ 16000) :
    transcriberInit T1 rate = Except.error
        "Moonshine поддерживает только частоту дискретизации 16000 Гц." ∧
      transcriberInit T1 rate = transcriberInit T2 rate ∧
      (∀ T : List Sample → String,
        transcriberInit T 16000 =
          Except.ok { number_inferences := 1, speech_secs := 1 }) ∧
      (∀ (T : List Sample → String) (s : SegState μ) (fs : List (Frame μ)),
        1 ≤ s.tr.number_inferences →
          1 ≤ (runSteps T s fs).1.tr.number_inferences) ∧
      (∀ (T : List Sample → String) (s : SegState μ)
          (queued : List (List Sample)),
        1 ≤ s.tr.number_inferences →
          1 ≤ (shutdownDrain T s queued).1.tr.number_inferences) := by
  refine ⟨by simp [transcriberInit, hrate], by simp [transcriberInit, hrate],
    ?_, ?_, ?_⟩
  · intro T
    unfold transcriberInit
    rw [if_pos rfl]
    simp only [tcall, List.length_replicate]
    norm_num [SAMPLING_RATE]
  · intro T s fs h
    exact le_trans h (runSteps_tr_mono T s fs)
  · intro T s queued h
    by_cases hr : s.recording = true
    · simp only [shutdownDrain, hr, if_true, end_recording, tcall]
      omega
    · simp only [shutdownDrain, hr, if_false]
      exact h

/-- C10 witness: rate 8000 is rejected; the run/drain parts instantiated. -/
theorem c10_witness :
    (8000 ≠ 16000) ∧
      transcriberInit abT 8000 = Except.error
        "Moonshine поддерживает только частоту дискретизации 16000 Гц." ∧
      transcriberInit abT 16000 =
        Except.ok { number_inferences := 1, speech_secs := 1 } ∧
      1 ≤ (runSteps abT recS1 [startFrame1]).1.tr.number_inferences :=
  ⟨by decide,
    (@c10_transcriber_init Unit abT abT 8000 (by decide)).1,
    (@c10_transcriber_init Unit abT abT 8000 (by decide)).2.2.1 abT,
    (@c10_transcriber_init Unit abT abT 8000 (by decide)).2.2.2.1 abT recS1
      [startFrame1] (by decide)⟩

/-- C4: starting idle, as long as no frame carries a `start` event the
segmenter stays in IDLE and after each processed frame the speech buffer
holds at most `LOOKBACK_CHUNKS * CHUNK_SIZE` samples. -/
theorem c4_idle_buffer (T : List Sample → String) (s : SegState μ)
    (fs : List (Frame μ)) (hidle : s.recording = false)
    (hns : ∀ f ∈ fs, ∀ d, f.event = some d → d.hasStart = false) :
    ∀ k, k < fs.length →
      (runSteps T s (fs.take (k + 1))).1.recording = false ∧
        (runSteps T s (fs.take (k + 1))).1.speech.length ≤
          LOOKBACK_CHUNKS * CHUNK_SIZE := by
  intro k hk
  have hns' : ∀ f ∈ fs.take k, ∀ d, f.event = some d → d.hasStart = false :=
    fun f hf => hns f (List.take_subset k fs hf)
  have hpre : (runSteps T s (fs.take k)).1.recording = false :=
    runSteps_idle_nostart T (fs.take k) s hidle hns'
  have hget : fs.get ⟨k, hk⟩ ∈ fs := List.get_mem fs k hk
  rw [take_succ_get fs k hk, runSteps_append]
  constructor
  · simp only [runSteps_cons, runSteps_nil]
    exact step_idle_recording_nostart T _ _ hpre
      (fun d hd => hns _ hget d hd)
  · simp only [runSteps_cons, runSteps_nil]
    exact step_idle_speech_len T _ _ hpre

/-- C4 witness: one event-free frame from the initial idle state. -/
theorem c4_witness :
    (initSeg vadU trWarm).recording = false ∧
      ((runSteps abT (initSeg vadU trWarm)
          ([speechFrame 0].take (0 + 1))).1.recording = false ∧
        (runSteps abT (initSeg vadU trWarm)
            ([speechFrame 0].take (0 + 1))).1.speech.length ≤
          LOOKBACK_CHUNKS * CHUNK_SIZE) :=
  ⟨rfl,
    c4_idle_buffer abT (initSeg vadU trWarm) [speechFrame 0] rfl
      (fun f hf d hd => by
        rw [List.mem_singleton] at hf
        subst hf
        simp [speechFrame] at hd)
      0 (by decide)⟩

/-- C7 (amended): the string published as the final caption of a completed
utterance is `cacheText` of the caption cache right after the append — the
entries joined with spaces and sentence-final punctuation rendered as
newlines — not the plain concatenation of the entries; the same holds for
the finalize performed by the shutdown drain. -/
theorem c7_roundtrip (T : List Sample → String) :
    (∀ (s : SegState μ) (f : Frame μ), (step T s f).2.finalized = true →
        cacheText (step T s f).1.caption_cache ∈ (step T s f).2.msgs) ∧
      (∀ (s : SegState μ) (queued : List (List Sample)), s.recording = true →
        (shutdownDrain T s queued).2 =
          [cacheText (shutdownDrain T s queued).1.caption_cache]) := by
  constructor
  · intro s f h
    rcases hev : f.event with _ | d
    · cases hrec : s.recording
      · rw [step_idle_none T s f hrec hev] at h
        simp at h
      · by_cases hcut : maxSpeechSamples < (s.speech ++ f.chunk).length
        · rw [step_rec_none_cut T s f hrec hev hcut, mkRefresh_fst_cache]
          refine mkRefresh_mem_msgs _ _ _ _ _ _ _ _ _ _ _ ?_
          simp [end_recording, tcall, print_captions_eq_cacheText]
        · rw [step_rec_none_nocut T s f hrec hev hcut,
            mkRefresh_snd_finalized] at h
          simp at h
    · cases hrec : s.recording
      · cases hS : d.hasStart
        · rw [step_idle_some_nostart T s f d hrec hev hS] at h
          simp at h
        · cases hE : d.hasEnd
          · rw [step_idle_some_start_noend T s f d hrec hev hS hE] at h
            simp at h
          · rw [step_idle_some_start_end T s f d hrec hev hS hE]
            simp [end_recording, tcall, print_captions_eq_cacheText]
      · cases hE : d.hasEnd
        · rw [step_rec_some_noend T s f d hrec hev hE] at h
          simp at h
        · rw [step_rec_some_end T s f d hrec hev hE]
          simp [end_recording, tcall, print_captions_eq_cacheText]
  · intro s queued hrec
    simp [shutdownDrain, hrec, end_recording, tcall,
      print_captions_eq_cacheText]

/-- C7 witness: a concrete finalizing step whose published caption is the
formatted cache text. -/
theorem c7_witness :
    (step abT recS1 endFrame1).2.finalized = true ∧
      cacheText (step abT recS1 endFrame1).1.caption_cache ∈
        (step abT recS1 endFrame1).2.msgs :=
  ⟨by decide, (c7_roundtrip abT).1 recS1 endFrame1 (by decide)⟩

/-- C7 counterexample: with ASR text `"A. B"` the completed utterance's final
caption is published as `"A.\nB"`, while CaptionCache holds `["A. B"]`:
neither the space-join nor the plain concatenation of the cache entries
reproduces the published final caption. -/
theorem c7_counterexample :
    (runSteps abT (initSeg vadU trWarm)
        [startFrame1, endFrame1]).1.caption_cache = ["A. B"] ∧
      ((runSteps abT (initSeg vadU trWarm) [startFrame1, endFrame1]).2.map
          (fun o => o.msgs)).flatten =
        ["STATUS: Обнаружена речь...", "A.\nB", "STATUS: Речь обработана!"] ∧
      String.intercalate " "
          (runSteps abT (initSeg vadU trWarm)
            [startFrame1, endFrame1]).1.caption_cache ≠ "A.\nB" ∧
      String.join
          (runSteps abT (initSeg vadU trWarm)
            [startFrame1, endFrame1]).1.caption_cache ≠ "A.\nB" := by
  refine ⟨by decide, by decide, by decide, by decide⟩

theorem take_split {α : Type} (l : List α) (a b : Nat) (h : a ≤ b) :
    l.take b = l.take a ++ (l.drop a).take (b - a) := by
  conv_lhs => rw [← List.take_append_drop a (l.take b)]
  rw [List.take_take, inf_eq_left.mpr h, List.drop_take]

/-- C2: feeding event-free fixed-size speech frames from a recording state
whose buffer is still within the duration bound, with more than
`MAX_SPEECH_SECS × SAMPLING_RATE` total samples, produces exactly one
finalizing call in the whole run; it happens at the frame that crosses the
boundary (the buffer right before it is still within the bound), performs the
soft reset of the VAD transient state without touching the model, returns the
segmenter to IDLE, and every later frame is still folded into the (truncated)
buffer. -/
theorem c2_forced_cutoff (T : List Sample → String) (s : SegState μ)
    (fs : List (Frame μ)) (hrec : s.recording = true)
    (hlen : s.speech.length ≤ maxSpeechSamples)
    (hev : ∀ f ∈ fs, f.event = none)
    (hch : ∀ f ∈ fs, f.chunk.length = CHUNK_SIZE)
    (hfeed : maxSpeechSamples < s.speech.length + CHUNK_SIZE * fs.length) :
    finCount (runSteps T s fs).2 = 1 ∧
      (runSteps T s fs).1.recording = false ∧
      ∃ hk : cutIndex s < fs.length,
        (step T (runSteps T s (fs.take (cutIndex s))).1
            (fs.get ⟨cutIndex s, hk⟩)).2.finalized = true ∧
        (step T (runSteps T s (fs.take (cutIndex s))).1
            (fs.get ⟨cutIndex s, hk⟩)).2.softReset = true ∧
        (step T (runSteps T s (fs.take (cutIndex s))).1
            (fs.get ⟨cutIndex s, hk⟩)).1.recording = false ∧
        (step T (runSteps T s (fs.take (cutIndex s))).1
            (fs.get ⟨cutIndex s, hk⟩)).1.vad =
          soft_reset (fs.get ⟨cutIndex s, hk⟩).vadOut ∧
        (runSteps T s (fs.take (cutIndex s))).1.speech.length ≤
          maxSpeechSamples ∧
        (∀ (j : Nat) (hj : j < fs.length), cutIndex s < j →
          (runSteps T s (fs.take (j + 1))).1.speech =
            lastN lookback_size
              ((runSteps T s (fs.take j)).1.speech ++
                (fs.get ⟨j, hj⟩).chunk)) := by
  have hk : cutIndex s < fs.length := by
    simp only [cutIndex, maxSpeechSamples_eq, CHUNK_SIZE] at hfeed hlen ⊢
    omega
  have hpresub : ∀ f ∈ fs.take (cutIndex s),
      f.event = none ∧ f.chunk.length = CHUNK_SIZE :=
    fun f hf => ⟨hev f (List.take_subset _ fs hf),
      hch f (List.take_subset _ fs hf)⟩
  have hprelen : (fs.take (cutIndex s)).length = cutIndex s := by
    rw [List.length_take]
    omega
  have hbelow : s.speech.length + CHUNK_SIZE * cutIndex s ≤ maxSpeechSamples := by
    simp only [cutIndex, maxSpeechSamples_eq, CHUNK_SIZE] at hlen ⊢
    omega
  obtain ⟨ra, rb, rc, rd⟩ := runSteps_rec_none_below T (fs.take (cutIndex s)) s
    hrec (fun f hf => (hpresub f hf).1) (fun f hf => (hpresub f hf).2)
    (by rw [hprelen]; exact hbelow)
  have hsklen : (runSteps T s (fs.take (cutIndex s))).1.speech.length =
      s.speech.length + CHUNK_SIZE * cutIndex s := by
    rw [rb, List.length_append,
      flatten_chunk_length _ (fun f hf => (hpresub f hf).2), hprelen]
  have hfk : fs.get ⟨cutIndex s, hk⟩ ∈ fs := List.get_mem fs _ hk
  have hcut : maxSpeechSamples <
      ((runSteps T s (fs.take (cutIndex s))).1.speech ++
        (fs.get ⟨cutIndex s, hk⟩).chunk).length := by
    rw [List.length_append, hsklen, hch _ hfk]
    simp only [cutIndex, maxSpeechSamples_eq, CHUNK_SIZE] at hlen ⊢
    omega
  have estep := step_rec_none_cut T _ _ ra (hev _ hfk) hcut
  have pfin : (step T (runSteps T s (fs.take (cutIndex s))).1
      (fs.get ⟨cutIndex s, hk⟩)).2.finalized = true := by
    rw [estep, mkRefresh_snd_finalized]
  have psoft : (step T (runSteps T s (fs.take (cutIndex s))).1
      (fs.get ⟨cutIndex s, hk⟩)).2.softReset = true := by
    rw [estep, mkRefresh_snd_softReset]
  have prec : (step T (runSteps T s (fs.take (cutIndex s))).1
      (fs.get ⟨cutIndex s, hk⟩)).1.recording = false := by
    rw [estep, mkRefresh_fst_recording]
  have pvad : (step T (runSteps T s (fs.take (cutIndex s))).1
      (fs.get ⟨cutIndex s, hk⟩)).1.vad =
      soft_reset (fs.get ⟨cutIndex s, hk⟩).vadOut := by
    rw [estep, mkRefresh_fst_vad]
  have hdropev : ∀ f ∈ fs.drop (cutIndex s + 1), f.event = none :=
    fun f hf => hev f (List.drop_subset _ fs hf)
  have hsplit : fs = fs.take (cutIndex s) ++
      fs.get ⟨cutIndex s, hk⟩ :: fs.drop (cutIndex s + 1) := by
    conv_lhs => rw [← List.take_append_drop (cutIndex s) fs]
    rw [List.drop_eq_getElem_cons hk]
    rfl
  obtain ⟨qa, qb⟩ := runSteps_idle_none T (fs.drop (cutIndex s + 1))
    ((step T (runSteps T s (fs.take (cutIndex s))).1
      (fs.get ⟨cutIndex s, hk⟩)).1) prec hdropev
  have hfin : finCount (runSteps T s fs).2 = 1 := by
    conv_lhs => rw [hsplit]
    simp only [runSteps_append, runSteps_cons, finCount_append, finCount_cons,
      rd, pfin, qb]
    simp
  have hrecfin : (runSteps T s fs).1.recording = false := by
    conv_lhs => rw [hsplit]
    simp only [runSteps_append, runSteps_cons]
    exact qa
  have hidle_m : ∀ m, cutIndex s < m → m ≤ fs.length →
      (runSteps T s (fs.take m)).1.recording = false := by
    intro m h1 h2
    rw [take_split fs (cutIndex s + 1) m h1]
    rw [take_succ_get fs (cutIndex s) hk]
    simp only [runSteps_append, runSteps_cons, runSteps_nil]
    refine (runSteps_idle_none T _ _ prec ?_).1
    exact fun f hf => hev f (List.drop_subset _ fs (List.take_subset _ _ hf))
  refine ⟨hfin, hrecfin, hk, pfin, psoft, prec, pvad, ?_, ?_⟩
  · rw [hsklen]
    exact hbelow
  · intro j hj hkj
    have hidlej : (runSteps T s (fs.take j)).1.recording = false :=
      hidle_m j hkj (le_of_lt hj)
    rw [take_succ_get fs j hj]
    simp only [runSteps_append, runSteps_cons, runSteps_nil]
    rw [step_idle_none T _ _ hidlej (hev _ (List.get_mem fs j hj))]

/-- C2 witness: 469 event-free 512-sample frames from a fresh recording state
cross the 15-second boundary. -/
theorem c2_witness :
    recS.recording = true ∧
      recS.speech.length ≤ maxSpeechSamples ∧
      maxSpeechSamples < recS.speech.length + CHUNK_SIZE * c2Frames.length ∧
      finCount (runSteps abT recS c2Frames).2 = 1 ∧
      (runSteps abT recS c2Frames).1.recording = false := by
  have hev : ∀ f ∈ c2Frames, f.event = none := by
    intro f hf
    have hf' : f = speechFrame 0 := List.eq_of_mem_replicate hf
    rw [hf']
    rfl
  have hch : ∀ f ∈ c2Frames, f.chunk.length = CHUNK_SIZE := by
    intro f hf
    have hf' : f = speechFrame 0 := List.eq_of_mem_replicate hf
    rw [hf']
    simp only [speechFrame, zeroChunk, List.length_replicate]
  have hlenf : c2Frames.length = 469 := by
    simp only [c2Frames, List.length_replicate]
  have hfeed : maxSpeechSamples <
      recS.speech.length + CHUNK_SIZE * c2Frames.length := by
    rw [hlenf]
    decide
  have h := c2_forced_cutoff abT recS c2Frames rfl (by decide) hev hch hfeed
  exact ⟨rfl, by decide, hfeed, h.1, h.2.1⟩

/-- One loop iteration preserves the (amended) buffer bound: while recording
the buffer stays within `maxSpeechSamples`, and in general it never exceeds
`maxSpeechSamples + CHUNK_SIZE`, provided chunks are at most one block and
the VAD event is of the shape Silero produces (no spurious `start` while an
utterance is being recorded). -/
theorem step_bound (T : List Sample → String) (s : SegState μ) (f : Frame μ)
    (hJ1 : s.recording = true → s.speech.length ≤ maxSpeechSamples)
    (_hJ2 : s.speech.length ≤ maxSpeechSamples + CHUNK_SIZE)
    (hch : f.chunk.length ≤ CHUNK_SIZE)
    (hshape : f.event = none ∨
      f.event = some { hasStart := true, hasEnd := false } ∨
      f.event = some { hasStart := false, hasEnd := true })
    (hns : s.recording = true →
      f.event ≠ some { hasStart := true, hasEnd := false }) :
    ((step T s f).1.recording = true →
        (step T s f).1.speech.length ≤ maxSpeechSamples) ∧
      (step T s f).1.speech.length ≤ maxSpeechSamples + CHUNK_SIZE := by
  cases hrec : s.recording
  · have hlen := step_idle_speech_len T s f hrec
    rw [lookback_size_eq] at hlen
    rw [maxSpeechSamples_eq]
    constructor
    · intro _
      omega
    · omega
  · have hsl := hJ1 hrec
    rcases hshape with hev | hev | hev
    · by_cases hcut : maxSpeechSamples < (s.speech ++ f.chunk).length
      · have estep := step_rec_none_cut T s f hrec hev hcut
        have hr : (step T s f).1.recording = false := by
          rw [estep, mkRefresh_fst_recording]
        have hsp : (step T s f).1.speech.length =
            s.speech.length + f.chunk.length := by
          rw [estep, mkRefresh_fst_speech]
          simp [end_recording]
        constructor
        · intro h
          rw [hr] at h
          simp at h
        · rw [hsp]
          omega
      · have estep := step_rec_none_nocut T s f hrec hev hcut
        have hsp : (step T s f).1.speech = s.speech ++ f.chunk := by
          rw [estep, mkRefresh_fst_speech]
        have hb : (step T s f).1.speech.length ≤ maxSpeechSamples := by
          rw [hsp]
          simp only [List.length_append] at hcut ⊢
          omega
        exact ⟨fun _ => hb, le_trans hb (by omega)⟩
    · exact absurd hev (hns hrec)
    · have estep := step_rec_some_end T s f { hasStart := false, hasEnd := true }
        hrec hev rfl
      have hr : (step T s f).1.recording = false := by rw [estep]
      have hsp : (step T s f).1.speech.length =
          s.speech.length + f.chunk.length := by
        rw [estep]
        simp [end_recording]
      constructor
      · intro h
        rw [hr] at h
        simp at h
      · rw [hsp]
        omega

/-- C3 (amended): under the Silero event shapes, with chunks of at most one
block and no `start` event delivered while recording, every reachable state
of a run satisfies the bound `speech.length ≤ maxSpeechSamples + CHUNK_SIZE`
(with `≤ maxSpeechSamples` whenever recording): the strict
`≤ maxSpeechSamples` claimed by the spec can be exceeded by up to one chunk
at a forced cutoff (see the counterexample).  Moreover every finalizing step
zeroes the accumulator contents in place (the length persists until the next
idle-frame truncation). -/
theorem c3_invariant (T : List Sample → String) (s : SegState μ)
    (fs : List (Frame μ))
    (hJ1 : s.recording = true → s.speech.length ≤ maxSpeechSamples)
    (hJ2 : s.speech.length ≤ maxSpeechSamples + CHUNK_SIZE)
    (hch : ∀ f ∈ fs, f.chunk.length ≤ CHUNK_SIZE)
    (hshape : ∀ f ∈ fs, f.event = none ∨
      f.event = some { hasStart := true, hasEnd := false } ∨
      f.event = some { hasStart := false, hasEnd := true })
    (hnostart : ∀ (k : Nat) (hk : k < fs.length),
      (runSteps T s (fs.take k)).1.recording = true →
        (fs.get ⟨k, hk⟩).event ≠ some { hasStart := true, hasEnd := false }) :
    (∀ k, k ≤ fs.length →
      ((runSteps T s (fs.take k)).1.recording = true →
          (runSteps T s (fs.take k)).1.speech.length ≤ maxSpeechSamples) ∧
        (runSteps T s (fs.take k)).1.speech.length ≤
          maxSpeechSamples + CHUNK_SIZE) ∧
      (∀ (s' : SegState μ) (f' : Frame μ), (step T s' f').2.finalized = true →
        ∀ x ∈ (step T s' f').1.speech, x = 0) := by
  refine ⟨?_, fun s' f' h => step_speech_zero_of_finalized T s' f' h⟩
  intro k
  induction k with
  | zero =>
    intro _
    simpa using ⟨hJ1, hJ2⟩
  | succ k ih =>
    intro hk1
    have hk : k < fs.length := hk1
    obtain ⟨p1, p2⟩ := ih (le_of_lt hk)
    have hmem : fs.get ⟨k, hk⟩ ∈ fs := List.get_mem fs k hk
    rw [take_succ_get fs k hk]
    simp only [runSteps_append, runSteps_cons, runSteps_nil]
    exact step_bound T _ _ p1 p2 (hch _ hmem) (hshape _ hmem)
      (fun hr => hnostart k hk hr)

/-- C3 witness: the amended invariant instantiated on one event-free frame
from the initial state. -/
theorem c3_witness :
    (((runSteps abT (initSeg vadU trWarm)
          (([speechFrame 0] : List (Frame Unit)).take 1)).1.recording = true →
        (runSteps abT (initSeg vadU trWarm)
            ([speechFrame 0].take 1)).1.speech.length ≤ maxSpeechSamples) ∧
      (runSteps abT (initSeg vadU trWarm)
          ([speechFrame 0].take 1)).1.speech.length ≤
        maxSpeechSamples + CHUNK_SIZE) ∧
      (1 : Nat) ≤ ([speechFrame 0] : List (Frame Unit)).length :=
  ⟨(c3_invariant abT (initSeg vadU trWarm) [speechFrame 0] (by decide)
      (by decide)
      (fun f hf => by
        rw [List.mem_singleton] at hf
        rw [hf]
        simp only [speechFrame, zeroChunk, List.length_replicate, le_refl])
      (fun f hf => by
        rw [List.mem_singleton] at hf
        rw [hf]
        exact Or.inl rfl)
      (fun k hk hr => by
        have hk1 : k < 1 := by simpa using hk
        have hk0 : k = 0 := by omega
        subst hk0
        simp only [List.take_zero, runSteps_nil, initSeg] at hr
        exact absurd hr (by decide))).1 1 (by decide),
    by decide⟩

theorem end_recording_speech (T : List Sample → String) (sp : List Sample)
    (cache : List String) (tr : TState) (dp : Bool) :
    (end_recording T sp cache tr dp).speech = sp.map (fun _ => (0 : Sample)) :=
  rfl

/-- C3 counterexample: a start frame followed by 468 event-free speech frames
leaves the accumulator at 240128 samples — 240128 / 16000 > 15 seconds — so
the claimed invariant `length / sample_rate ≤ MAX_SPEECH_SECS` fails: the
forced cutoff fires only after the boundary is exceeded and the in-place
zeroing keeps the length. -/
theorem c3_counterexample :
    (runSteps abT (initSeg vadU trWarm) c3Frames).1.speech.length = 240128 ∧
      maxSpeechSamples <
        (runSteps abT (initSeg vadU trWarm) c3Frames).1.speech.length := by
  have hsplit : c3Frames =
      [startFrame 0] ++
        (List.replicate 467 (speechFrame 0) ++ [speechFrame 0]) := by
    show startFrame 0 :: List.replicate 468 (speechFrame 0) = _
    rw [show (468 : Nat) = 467 + 1 from rfl,
      List.replicate_succ' 467 (speechFrame 0)]
    rfl
  have hs1 : (step abT (initSeg vadU trWarm) (startFrame 0)).1 = c3State1 := by
    decide
  have hev : ∀ f ∈ List.replicate 467 (speechFrame 0), f.event = none := by
    intro f hf
    rw [List.eq_of_mem_replicate hf]
    rfl
  have hch : ∀ f ∈ List.replicate 467 (speechFrame 0),
      f.chunk.length = CHUNK_SIZE := by
    intro f hf
    rw [List.eq_of_mem_replicate hf]
    simp only [speechFrame, zeroChunk, List.length_replicate]
  obtain ⟨ra, rb, rc, rd⟩ := runSteps_rec_none_below abT
    (List.replicate 467 (speechFrame 0)) c3State1 rfl hev hch
    (by
      simp only [List.length_replicate]
      decide)
  have hlen2 : (runSteps abT c3State1
      (List.replicate 467 (speechFrame 0))).1.speech.length = 239616 := by
    rw [rb, List.length_append, flatten_chunk_length _ hch]
    simp only [c3State1, zeroChunk, List.length_replicate]
    norm_num [CHUNK_SIZE]
  have hcut : maxSpeechSamples <
      ((runSteps abT c3State1 (List.replicate 467 (speechFrame 0))).1.speech ++
        (speechFrame 0).chunk).length := by
    rw [List.length_append, hlen2, maxSpeechSamples_eq]
    simp only [speechFrame, zeroChunk, List.length_replicate, CHUNK_SIZE]
    norm_num
  have estep := step_rec_none_cut abT
    (runSteps abT c3State1 (List.replicate 467 (speechFrame 0))).1
    (speechFrame 0) ra rfl hcut
  have hfinsp : (step abT
      (runSteps abT c3State1 (List.replicate 467 (speechFrame 0))).1
      (speechFrame 0)).1.speech.length = 240128 := by
    rw [estep, mkRefresh_fst_speech, end_recording_speech,
      List.length_map, List.length_append, hlen2]
    simp only [speechFrame, zeroChunk, List.length_replicate]
    norm_num [CHUNK_SIZE]
  have h1 : (runSteps abT (initSeg vadU trWarm) [startFrame 0]).1 =
      c3State1 := by
    rw [runSteps_singleton_fst]
    exact hs1
  constructor
  · rw [hsplit, runSteps_append_fst, h1, runSteps_append_fst,
      runSteps_singleton_fst]
    exact hfinsp
  · rw [hsplit, runSteps_append_fst, h1, runSteps_append_fst,
      runSteps_singleton_fst, hfinsp, maxSpeechSamples_eq]
    norm_num

/-- C5: two successive refresh transcriptions — one at `refFrameA`-style frame
`fi`, the next at `fj` with no refresh in between and non-decreasing frame
times — are strictly more than `MIN_REFRESH_SECS` apart (hence at least
`MIN_REFRESH_SECS`); and every non-finalizing refresh leaves CaptionCache
untouched, keeps the speech buffer (only appending the current chunk), and
publishes the combined cache-plus-partial caption. -/
theorem c5_refresh_spacing (T : List Sample → String) (s : SegState μ)
    (as : List (Frame μ)) (fi : Frame μ) (bs : List (Frame μ)) (fj : Frame μ)
    (hmono : ∀ f ∈ bs, fi.now ≤ f.now)
    (hri : (step T (runSteps T s as).1 fi).2.refreshed = true)
    (_hrb : ∀ o ∈ (runSteps T (step T (runSteps T s as).1 fi).1 bs).2,
      o.refreshed = false)
    (hrj : (step T (runSteps T (step T (runSteps T s as).1 fi).1 bs).1
      fj).2.refreshed = true) :
    fi.now + MIN_REFRESH_SECS < fj.now ∧
      (∀ (s' : SegState μ) (f' : Frame μ),
        (step T s' f').2.refreshed = true →
          (step T s' f').2.finalized = false →
          (step T s' f').1.caption_cache = s'.caption_cache ∧
            (step T s' f').1.speech = s'.speech ++ f'.chunk ∧
            print_captions (T (s'.speech ++ f'.chunk)) s'.caption_cache ∈
              (step T s' f').2.msgs) := by
  constructor
  · have h1 : (step T (runSteps T s as).1 fi).1.start_time = fi.now :=
      (step_refreshed T _ fi hri).2.2.2
    have h2 : fi.now ≤
        (runSteps T (step T (runSteps T s as).1 fi).1 bs).1.start_time :=
      runSteps_start_time_ge T _ bs fi.now (le_of_eq h1.symm) hmono
    obtain ⟨-, -, h3, -⟩ := step_refreshed T _ fj hrj
    linarith
  · intro s' f' h1 h2
    exact step_refresh_not_finalized_shape T s' f' h1 h2

/-- C5 witness: two concrete refreshes at times 1 and 2 from a recording
state whose timer starts at 0. -/
theorem c5_witness :
    (step abT (runSteps abT recS1 []).1 refFrameA).2.refreshed = true ∧
      (step abT (runSteps abT
          (step abT (runSteps abT recS1 []).1 refFrameA).1 []).1
        refFrameB).2.refreshed = true ∧
      refFrameA.now + MIN_REFRESH_SECS < refFrameB.now := by
  have hcutA : ¬ maxSpeechSamples <
      (recS1.speech ++ refFrameA.chunk).length := by decide
  have eA := step_rec_none_nocut abT recS1 refFrameA rfl rfl hcutA
  have hriA : (step abT recS1 refFrameA).2.refreshed = true := by
    rw [eA, mkRefresh_refreshed_iff]
    norm_num [refFrameA, recS1, MIN_REFRESH_SECS]
  have hstA : (step abT recS1 refFrameA).1.start_time = refFrameA.now :=
    (step_refreshed abT recS1 refFrameA hriA).2.2.2
  have hrecA : (step abT recS1 refFrameA).1.recording = true := by
    rw [eA, mkRefresh_fst_recording]
  have hspA : (step abT recS1 refFrameA).1.speech =
      recS1.speech ++ refFrameA.chunk := by
    rw [eA, mkRefresh_fst_speech]
  have hcutB : ¬ maxSpeechSamples <
      ((step abT recS1 refFrameA).1.speech ++ refFrameB.chunk).length := by
    rw [hspA]
    decide
  have eB := step_rec_none_nocut abT (step abT recS1 refFrameA).1 refFrameB
    hrecA rfl hcutB
  have hriB : (step abT (step abT recS1 refFrameA).1 refFrameB).2.refreshed =
      true := by
    rw [eB, mkRefresh_refreshed_iff, hstA]
    norm_num [refFrameA, refFrameB, MIN_REFRESH_SECS]
  exact ⟨by simpa using hriA, by simpa using hriB,
    (c5_refresh_spacing abT recS1 [] refFrameA [] refFrameB
      (fun f hf => absurd hf (List.not_mem_nil f)) (by simpa using hriA)
      (fun o ho => absurd ho (List.not_mem_nil o)) (by simpa using hriB)).1⟩

end LiveTranslation
